import Mathlib

/-!
Verification development for the `lfo-rs` low-frequency oscillator.

The Rust source (`src/lib.rs`) is shallowly embedded here.  Values of type
`f64` are modelled by exact rationals `ℚ`: every arithmetic operation the
claims exercise (addition, multiplication, division by a nonzero constant,
truncating fractional part, comparison) is exact at the inputs involved.  The
one transcendental, `f64::sin`, has no exact rational counterpart; the sine
shaper is therefore parametrised by a function `s : ℚ → ℚ` standing for
`p ↦ sin (TAU * p)`, with its boundedness `∀ x, |s x| ≤ 1` taken as a
hypothesis where a theorem needs it.

Rust semantics captured by the model: `x.fract()` is truncation-based
(`x - x.trunc()`), so it is negative for negative arguments; `f64 as usize`
saturates (negative and NaN inputs go to `0`, values above `usize::MAX` go to
`usize::MAX`); and `%` on `usize` panics when the divisor is `0`.  The
stepping operation is therefore modelled as returning an `Option`, with
`none` standing for the panic.
-/

/-- The constant `usize::MAX` on a 64-bit target. -/
def usizeMax : ℕ := 2 ^ 64 - 1

/-- Model of Rust `f64::trunc`: rounds toward zero. -/
def rtrunc (x : ℚ) : ℤ := if 0 ≤ x then ⌊x⌋ else ⌈x⌉

/-- Model of Rust `f64::fract`, the truncation-based fractional part
`x - x.trunc()` (negative for negative `x`). -/
def fract (x : ℚ) : ℚ := x - rtrunc x

/-- Model of the Rust cast `f64 as usize`, which saturates: negative inputs
give `0`, inputs above `usize::MAX` give `usize::MAX`, otherwise truncation. -/
def toUsize (x : ℚ) : ℕ := if x < 0 then 0 else min (⌊x⌋.toNat) usizeMax

/-- Embedding of `fn phase(freq: f64, time: f64, theta: f64) -> f64` from
`src/lib.rs`: `(freq * time + theta).fract()`. -/
def phase (freq time theta : ℚ) : ℚ := fract (freq * time + theta)

/-- Embedding of `fn sine(phase: f64) -> f64`, which is `(TAU * phase).sin()`.
The composite `p ↦ sin (TAU * p)` is the parameter `s`. -/
def sine (s : ℚ → ℚ) (p : ℚ) : ℚ := s p

/-- Embedding of `fn triangle(phase: f64) -> f64` from `src/lib.rs`. -/
def triangle (p : ℚ) : ℚ := if p < 1/2 then 4 * p - 1 else 3 - 4 * p

/-- Embedding of `fn saw(phase: f64, ramp_up: bool) -> f64` from `src/lib.rs`. -/
def saw (p : ℚ) (ramp_up : Bool) : ℚ := if ramp_up then 2 * p - 1 else 1 - 2 * p

/-- Embedding of `fn pulse(phase: f64, duty_ratio: f64) -> f64` from
`src/lib.rs`. -/
def pulse (p duty_ratio : ℚ) : ℚ := if p < duty_ratio then 1 else -1

/-- Embedding of `pub enum Waveform` from `src/lib.rs`. -/
inductive Waveform : Type
  | Sine : Waveform
  | Triangle : Waveform
  | SawUp : Waveform
  | SawDn : Waveform
  | Pulse : ℚ → Waveform

/-- Embedding of `pub struct LFO` from `src/lib.rs`. -/
structure LFO : Type where
  waveform : Waveform
  freq : ℚ
  theta : ℚ
  gain : ℚ
  time_step : ℚ
  sample_rate : ℚ

/-- Embedding of `LFO::new` from `src/lib.rs`. -/
def LFO.new (waveform : Waveform) (freq sample_rate : ℚ) : LFO :=
  { waveform := waveform, freq := freq, theta := 0, gain := 1,
    time_step := 0, sample_rate := sample_rate }

/-- Embedding of `LFO::set_waveform` from `src/lib.rs`. -/
def LFO.set_waveform (l : LFO) (waveform : Waveform) : LFO :=
  { l with waveform := waveform }

/-- Embedding of `LFO::set_freq` from `src/lib.rs`. -/
def LFO.set_freq (l : LFO) (freq : ℚ) : LFO := { l with freq := freq }

/-- Embedding of `LFO::set_theta` from `src/lib.rs`. -/
def LFO.set_theta (l : LFO) (theta : ℚ) : LFO := { l with theta := theta }

/-- Embedding of `LFO::set_gain` from `src/lib.rs`. -/
def LFO.set_gain (l : LFO) (gain : ℚ) : LFO := { l with gain := gain }

/-- Embedding of `LFO::reset` from `src/lib.rs`. -/
def LFO.reset (l : LFO) : LFO := { l with time_step := 0 }

/-- The phase computed at the top of `LFO::generate`, namely
`phase(self.freq, self.time_step / self.sample_rate, self.theta)`. -/
def LFO.currentPhase (l : LFO) : ℚ :=
  phase l.freq (l.time_step / l.sample_rate) l.theta

/-- Embedding of `LFO::generate` from `src/lib.rs`.  Returns the raw amplitude
together with the updated state; `none` models the panic that
`(self.time_step + 1.0) as usize % self.sample_rate as usize` raises when
`self.sample_rate as usize == 0` (remainder by zero). -/
def LFO.generate (s : ℚ → ℚ) (l : LFO) : Option (ℚ × LFO) :=
  let p := l.currentPhase
  let d := toUsize l.sample_rate
  if d = 0 then none
  else
    let l' := { l with time_step := ((toUsize (l.time_step + 1) % d : ℕ) : ℚ) }
    match l.waveform with
    | .Sine => some (sine s p, l')
    | .Triangle => some (triangle p, l')
    | .SawUp => some (saw p true, l')
    | .SawDn => some (saw p false, l')
    | .Pulse duty_ratio => some (pulse p duty_ratio, l')

/-- Embedding of `<LFO as Signal>::next` from `src/lib.rs`:
`let amp = 0.5 * self.gain; amp * (self.generate() + 1.0)`. -/
def LFO.next (s : ℚ → ℚ) (l : LFO) : Option (ℚ × LFO) :=
  match l.generate s with
  | none => none
  | some (a, l') => some (0.5 * l.gain * (a + 1), l')

/-- State after `n` successive calls to `next`; `none` if any call panicked. -/
def LFO.stepN (s : ℚ → ℚ) (l : LFO) : ℕ → Option LFO
  | 0 => some l
  | n + 1 => (l.stepN s n).bind fun l' => (l'.next s).map Prod.snd

/-- The sample returned by the call number `n + 1` to `next` (0-indexed). -/
def LFO.sampleAt (s : ℚ → ℚ) (l : LFO) (n : ℕ) : Option ℚ :=
  (l.stepN s n).bind fun l' => (l'.next s).map Prod.fst

/-- The raw (pre-gain) amplitude `LFO::generate` produces from the current
state: the exhaustive match over the waveform variants. -/
def rawAmp (s : ℚ → ℚ) (l : LFO) : ℚ :=
  match l.waveform with
  | .Sine => sine s l.currentPhase
  | .Triangle => triangle l.currentPhase
  | .SawUp => saw l.currentPhase true
  | .SawDn => saw l.currentPhase false
  | .Pulse duty_ratio => pulse l.currentPhase duty_ratio

/-- The state update `LFO::generate` performs:
`self.time_step = ((self.time_step + 1.0) as usize % self.sample_rate as usize) as f64`. -/
def stepState (l : LFO) : LFO :=
  { l with time_step := ((toUsize (l.time_step + 1) % toUsize l.sample_rate : ℕ) : ℚ) }

/-- The oscillator of the pulse scenario:
`Oscillator(Pulse(0.5), freq=2, sample_rate=1000)` with `gain=0.5`. -/
def c1LFO : LFO := (LFO.new (.Pulse (1/2)) 2 1000).set_gain (1/2)

section BasicLemmas

theorem rtrunc_of_nonneg {x : ℚ} (h : 0 ≤ x) : rtrunc x = ⌊x⌋ := if_pos h

theorem rtrunc_of_neg {x : ℚ} (h : x < 0) : rtrunc x = ⌈x⌉ := if_neg (not_le.mpr h)

theorem fract_of_nonneg {x : ℚ} (h : 0 ≤ x) : fract x = Int.fract x := by
  rw [fract, rtrunc_of_nonneg h, Int.fract]

theorem fract_nonneg_of_nonneg {x : ℚ} (h : 0 ≤ x) : 0 ≤ fract x := by
  rw [fract_of_nonneg h]
  exact Int.fract_nonneg x

theorem fract_lt_one (x : ℚ) : fract x < 1 := by
  rcases le_or_lt 0 x with h | h
  · rw [fract_of_nonneg h]
    exact Int.fract_lt_one x
  · have hc := Int.le_ceil x
    rw [fract, rtrunc_of_neg h]
    linarith

theorem neg_one_lt_fract (x : ℚ) : -1 < fract x := by
  rcases le_or_lt 0 x with h | h
  · have := Int.fract_nonneg (α := ℚ) x
    rw [fract_of_nonneg h]
    linarith
  · have hc := Int.ceil_lt_add_one x
    rw [fract, rtrunc_of_neg h]
    linarith

theorem toUsize_of_nonpos {x : ℚ} (h : x ≤ 0) : toUsize x = 0 := by
  rcases lt_or_eq_of_le h with h' | h'
  · rw [toUsize, if_pos h']
  · rw [toUsize, if_neg (by rw [h']; exact lt_irrefl 0), h']
    simp

theorem toUsize_natCast {n : ℕ} (h : n ≤ usizeMax) : toUsize (n : ℚ) = n := by
  rw [toUsize, if_neg (not_lt.mpr (Nat.cast_nonneg n)), Int.floor_natCast]
  simp [h]

theorem toUsize_cast_le {x : ℚ} (h : toUsize x ≠ 0) : (toUsize x : ℚ) ≤ x := by
  by_cases hx : x < 0
  · exact absurd (toUsize_of_nonpos hx.le) h
  have hfl : (0 : ℤ) ≤ ⌊x⌋ := Int.floor_nonneg.mpr (not_lt.mp hx)
  have h1 : toUsize x ≤ ⌊x⌋.toNat := by
    rw [toUsize, if_neg hx]
    exact min_le_left _ _
  calc (toUsize x : ℚ) ≤ (⌊x⌋.toNat : ℚ) := by exact_mod_cast h1
    _ = ((⌊x⌋.toNat : ℤ) : ℚ) := by push_cast; ring
    _ = ((⌊x⌋ : ℤ) : ℚ) := by rw [Int.toNat_of_nonneg hfl]
    _ ≤ x := Int.floor_le x

theorem one_le_of_toUsize_ne_zero {x : ℚ} (h : toUsize x ≠ 0) : 1 ≤ x := by
  have h1 : 1 ≤ toUsize x := Nat.one_le_iff_ne_zero.mpr h
  have h2 : (1 : ℚ) ≤ (toUsize x : ℚ) := by exact_mod_cast h1
  exact h2.trans (toUsize_cast_le h)

theorem fract_natCast_div (m d : ℕ) (hd : d ≠ 0) :
    fract ((m : ℚ) / d) = ((m % d : ℕ) : ℚ) / d := by
  have hd0 : (0 : ℚ) < d := by
    exact_mod_cast Nat.pos_of_ne_zero hd
  rw [fract, rtrunc_of_nonneg (by positivity), Rat.floor_natCast_div_natCast]
  have h1 : (d : ℚ) * ((m / d : ℕ) : ℚ) + ((m % d : ℕ) : ℚ) = (m : ℚ) := by
    have h0 := congrArg (fun k : ℕ => (k : ℚ)) (Nat.div_add_mod m d)
    push_cast at h0
    exact h0
  have h2 : (((m : ℤ) / (d : ℤ) : ℤ) : ℚ) = ((m / d : ℕ) : ℚ) := by
    exact_mod_cast rfl
  rw [h2]
  field_simp
  linarith [h1]

end BasicLemmas

section StepLemmas

theorem generate_eq (s : ℚ → ℚ) (l : LFO) :
    l.generate s = if toUsize l.sample_rate = 0 then none
      else some (rawAmp s l, stepState l) := by
  by_cases hd : toUsize l.sample_rate = 0 <;>
    cases hw : l.waveform <;>
      simp [LFO.generate, rawAmp, stepState, hw, hd]

theorem next_eq (s : ℚ → ℚ) (l : LFO) :
    l.next s = if toUsize l.sample_rate = 0 then none
      else some (0.5 * l.gain * (rawAmp s l + 1), stepState l) := by
  rw [LFO.next, generate_eq]
  by_cases hd : toUsize l.sample_rate = 0 <;> simp [hd]

theorem next_nat_step (s : ℚ → ℚ) (l : LFO) (m : ℕ) (hm : l.time_step = (m : ℚ))
    (hmax : m + 1 ≤ usizeMax) (hd : toUsize l.sample_rate ≠ 0) :
    l.next s = some (0.5 * l.gain * (rawAmp s l + 1),
      { l with time_step := (((m + 1) % toUsize l.sample_rate : ℕ) : ℚ) }) := by
  rw [next_eq, if_neg hd]
  have hstep : stepState l = { l with time_step := (((m + 1) % toUsize l.sample_rate : ℕ) : ℚ) } := by
    rw [stepState, hm]
    have hcast : ((m : ℚ) + 1) = ((m + 1 : ℕ) : ℚ) := by push_cast; ring
    rw [hcast, toUsize_natCast hmax]
  rw [hstep]

end StepLemmas

section EvalLemmas

theorem fract_eval_nonneg {x : ℚ} {k : ℤ} (h0 : 0 ≤ x) (h1 : (k : ℚ) ≤ x)
    (h2 : x < k + 1) : fract x = x - k := by
  rw [fract, rtrunc_of_nonneg h0, Int.floor_eq_iff.mpr ⟨h1, h2⟩]

theorem fract_eval_neg {x : ℚ} {k : ℤ} (hx : x < 0) (h1 : (k : ℚ) - 1 < x)
    (h2 : x ≤ k) : fract x = x - k := by
  rw [fract, rtrunc_of_neg hx, Int.ceil_eq_iff.mpr ⟨h1, h2⟩]

theorem fract_zero : fract 0 = 0 := by
  rw [fract_eval_nonneg le_rfl (k := 0) (by norm_num) (by norm_num)]
  norm_num

theorem toUsize_1000 : toUsize 1000 = 1000 := by
  rw [show (1000 : ℚ) = ((1000 : ℕ) : ℚ) by norm_num,
    toUsize_natCast (by rw [usizeMax]; norm_num)]

theorem toUsize_five_halves : toUsize (5/2) = 2 := by
  rw [toUsize, if_neg (by norm_num),
    show ⌊(5/2 : ℚ)⌋ = 2 from Int.floor_eq_iff.mpr (by norm_num)]
  rw [usizeMax]
  norm_num
  decide

end EvalLemmas

section RangeLemmas

theorem currentPhase_lt_one (l : LFO) : l.currentPhase < 1 := fract_lt_one _

theorem neg_one_lt_currentPhase (l : LFO) : -1 < l.currentPhase :=
  neg_one_lt_fract _

theorem currentPhase_nonneg (l : LFO) (hf : 0 ≤ l.freq) (hth : 0 ≤ l.theta)
    (hts : 0 ≤ l.time_step) (hsr : 0 ≤ l.sample_rate) : 0 ≤ l.currentPhase :=
  fract_nonneg_of_nonneg
    (add_nonneg (mul_nonneg hf (div_nonneg hts hsr)) hth)

theorem triangle_bounds {p : ℚ} (h0 : 0 ≤ p) (h1 : p < 1) :
    -1 ≤ triangle p ∧ triangle p ≤ 1 := by
  rw [triangle]
  split <;> constructor <;> linarith

theorem saw_bounds {p : ℚ} (h0 : 0 ≤ p) (h1 : p < 1) (b : Bool) :
    -1 ≤ saw p b ∧ saw p b ≤ 1 := by
  rw [saw]
  cases b <;> simp <;> constructor <;> linarith

theorem pulse_bounds (p d : ℚ) : -1 ≤ pulse p d ∧ pulse p d ≤ 1 := by
  rw [pulse]
  split <;> norm_num

theorem rawAmp_bounds (s : ℚ → ℚ) (l : LFO) (hs : ∀ x, |s x| ≤ 1)
    (h0 : 0 ≤ l.currentPhase) (h1 : l.currentPhase < 1) :
    -1 ≤ rawAmp s l ∧ rawAmp s l ≤ 1 := by
  rcases hw : l.waveform with _ | _ | _ | _ | d
  · have := abs_le.mp (hs l.currentPhase)
    rw [rawAmp, hw]
    exact this
  · rw [rawAmp, hw]
    exact triangle_bounds h0 h1
  · rw [rawAmp, hw]
    exact saw_bounds h0 h1 true
  · rw [rawAmp, hw]
    exact saw_bounds h0 h1 false
  · rw [rawAmp, hw]
    exact pulse_bounds l.currentPhase d

end RangeLemmas

section PulseScenario

theorem c1_sample_rate_ne : toUsize (c1LFO.sample_rate) ≠ 0 := by
  show toUsize (1000 : ℚ) ≠ 0
  rw [toUsize_1000]
  norm_num

theorem c1_stepN (s : ℚ → ℚ) (n : ℕ) :
    c1LFO.stepN s n = some { c1LFO with time_step := ((n % 1000 : ℕ) : ℚ) } := by
  induction n with
  | zero =>
    show some c1LFO = _
    norm_num [c1LFO, LFO.new, LFO.set_gain]
  | succ n ih =>
    rw [LFO.stepN, ih, Option.some_bind]
    have hmax : n % 1000 + 1 ≤ usizeMax := by
      have := Nat.mod_lt n (show 0 < 1000 by norm_num)
      rw [usizeMax]
      omega
    rw [next_nat_step s { c1LFO with time_step := ((n % 1000 : ℕ) : ℚ) }
      (n % 1000) rfl hmax c1_sample_rate_ne, Option.map_some']
    have hmod : (n % 1000 + 1)
        % toUsize (({ c1LFO with time_step := ((n % 1000 : ℕ) : ℚ) } : LFO).sample_rate)
        = (n + 1) % 1000 := by
      have h1000 : toUsize (({ c1LFO with time_step := ((n % 1000 : ℕ) : ℚ) } : LFO).sample_rate)
          = 1000 := by
        show toUsize (1000 : ℚ) = 1000
        exact toUsize_1000
      rw [h1000]
      omega
    rw [hmod]

theorem c1_sample_formula (s : ℚ → ℚ) (n : ℕ) :
    c1LFO.sampleAt s n = some (if n % 500 < 250 then 1/2 else 0) := by
  rw [LFO.sampleAt, c1_stepN, Option.some_bind]
  have hmax : n % 1000 + 1 ≤ usizeMax := by
    have := Nat.mod_lt n (show 0 < 1000 by norm_num)
    rw [usizeMax]
    omega
  rw [next_nat_step s { c1LFO with time_step := ((n % 1000 : ℕ) : ℚ) }
    (n % 1000) rfl hmax c1_sample_rate_ne, Option.map_some']
  have hphase : ({ c1LFO with time_step := ((n % 1000 : ℕ) : ℚ) } : LFO).currentPhase
      = ((n % 500 : ℕ) : ℚ) / ((500 : ℕ) : ℚ) := by
    show phase 2 (((n % 1000 : ℕ) : ℚ) / 1000) 0 = _
    rw [phase,
      show (2 * (((n % 1000 : ℕ) : ℚ) / 1000) + 0 : ℚ)
        = ((n % 1000 : ℕ) : ℚ) / ((500 : ℕ) : ℚ) by push_cast; ring,
      fract_natCast_div (n % 1000) 500 (by norm_num),
      Nat.mod_mod_of_dvd n (by norm_num : (500 : ℕ) ∣ 1000)]
  have hraw : rawAmp s { c1LFO with time_step := ((n % 1000 : ℕ) : ℚ) }
      = pulse (((n % 500 : ℕ) : ℚ) / ((500 : ℕ) : ℚ)) (1/2) := by
    rw [rawAmp]
    show pulse ({ c1LFO with time_step := ((n % 1000 : ℕ) : ℚ) } : LFO).currentPhase (1/2) = _
    rw [hphase]
  rw [hraw]
  show some (0.5 * (1/2 : ℚ) * _) = _
  by_cases h : n % 500 < 250
  · have hlt : ((n % 500 : ℕ) : ℚ) / ((500 : ℕ) : ℚ) < 1/2 := by
      rw [div_lt_iff₀ (by norm_num)]
      push_cast
      have : ((n % 500 : ℕ) : ℚ) < 250 := by exact_mod_cast h
      linarith
    rw [pulse, if_pos hlt, if_pos h]
    norm_num
  · have hge : ¬(((n % 500 : ℕ) : ℚ) / ((500 : ℕ) : ℚ) < 1/2) := by
      rw [not_lt, le_div_iff₀ (by norm_num)]
      push_cast
      have : (250 : ℚ) ≤ ((n % 500 : ℕ) : ℚ) := by exact_mod_cast not_lt.mp h
      linarith
    rw [pulse, if_neg hge, if_neg h]
    norm_num

end PulseScenario

section ConcreteHelpers

theorem toUsize_new_1000 (w : Waveform) (f : ℚ) :
    toUsize ((LFO.new w f 1000).sample_rate) = 1000 := toUsize_1000

theorem toUsize_new_1000_ne (w : Waveform) (f : ℚ) :
    toUsize ((LFO.new w f 1000).sample_rate) ≠ 0 := by
  rw [toUsize_new_1000]
  norm_num

theorem currentPhase_new (w : Waveform) (f sr : ℚ) :
    (LFO.new w f sr).currentPhase = 0 := by
  show phase f (0 / sr) 0 = 0
  rw [phase, show (f * (0 / sr) + 0 : ℚ) = 0 by ring, fract_zero]

theorem phase_neg_thousandth : phase (-1) (1/1000) 0 = -(1/1000) := by
  rw [phase, show ((-1) * ((1:ℚ)/1000) + 0 : ℚ) = -(1/1000) by norm_num,
    fract_eval_neg (k := 0) (by norm_num) (by norm_num) (by norm_num)]
  norm_num

theorem rawAmp_new_sawup :
    rawAmp (fun _ => 0) (LFO.new Waveform.SawUp 3 1000) = -1 := by
  show saw ((LFO.new Waveform.SawUp 3 1000).currentPhase) true = -1
  rw [currentPhase_new]
  simp [saw]

theorem stepN_one (s : ℚ → ℚ) (w : Waveform) (f : ℚ) :
    (LFO.new w f 1000).stepN s 1 = some { LFO.new w f 1000 with time_step := (1 : ℚ) } := by
  rw [LFO.stepN, LFO.stepN, Option.some_bind,
    next_nat_step s (LFO.new w f 1000) 0 (by norm_num [LFO.new]) (by rw [usizeMax]; norm_num)
      (toUsize_new_1000_ne w f),
    Option.map_some']
  have hmod : (0 + 1) % toUsize ((LFO.new w f 1000).sample_rate) = 1 := by
    rw [toUsize_new_1000]
  rw [hmod]
  norm_num

theorem sampleAt_one (s : ℚ → ℚ) (w : Waveform) (f : ℚ) :
    (LFO.new w f 1000).sampleAt s 1
      = some (0.5 * 1 * (rawAmp s { LFO.new w f 1000 with time_step := (1 : ℚ) } + 1)) := by
  rw [LFO.sampleAt, stepN_one, Option.some_bind,
    next_nat_step s { LFO.new w f 1000 with time_step := (1 : ℚ) } 1 (by norm_num)
      (by rw [usizeMax]; norm_num) (toUsize_new_1000_ne w f), Option.map_some']
  rfl

end ConcreteHelpers

section Claims

/-- C1 (corrected): for the oscillator `Pulse(0.5), freq=2, sample_rate=1000`
with `gain=0.5`, the first 250 samples of each 500-sample period equal `0.5`
and the remaining 250 equal `0.0` — the implementation applies the unipolar
convention `0.5 * gain * (amplitude + 1)`, not the bipolar one of the claim. -/
theorem C1_pulse_scenario_samples (s : ℚ → ℚ) (n : ℕ) :
    c1LFO.sampleAt s n = some (if n % 500 < 250 then 1/2 else 0) :=
  c1_sample_formula s n

/-- C1 counterexample: sample number 250 of the pulse scenario is `0`, not the
`-0.5` the bipolar claim predicts. -/
theorem C1_not_bipolar :
    c1LFO.sampleAt (fun _ => 0) 250 = some 0 ∧ (0 : ℚ) ≠ -(1/2) := by
  constructor
  · rw [c1_sample_formula]
    norm_num
  · norm_num

/-- C2 (corrected): produce_next_sample returns a value exactly when the
sample rate cast to `usize` is nonzero; when the cast is zero (zero, negative,
or sub-1 sample rates) the wraparound remainder panics instead of returning. -/
theorem C2_next_total_iff (s : ℚ → ℚ) (l : LFO) :
    (l.next s).isSome ↔ toUsize l.sample_rate ≠ 0 := by
  rw [next_eq]
  by_cases hd : toUsize l.sample_rate = 0 <;> simp [hd]

/-- C2 counterexample: with the negative sample rate `-1` the claim promises a
returned value, but the call panics (remainder by zero), modelled as `none`. -/
theorem C2_panics_on_negative_rate :
    (LFO.new Waveform.Sine 440 (-1)).next (fun _ => 0) = none := by
  have h0 : toUsize ((LFO.new Waveform.Sine 440 (-1)).sample_rate) = 0 := by
    show toUsize (-1 : ℚ) = 0
    exact toUsize_of_nonpos (by norm_num)
  rw [next_eq, if_pos h0]

/-- C3 (confirmed): whenever produce_next_sample returns, the updated
time_step lies in `[0, sample_rate)`, and it equals the advance of
`time_step + 1` reduced modulo the integer-truncated sample rate. -/
theorem C3_time_index_in_range (s : ℚ → ℚ) (l : LFO) (a : ℚ) (l' : LFO)
    (h : l.next s = some (a, l')) :
    0 ≤ l'.time_step ∧ l'.time_step < l.sample_rate ∧
      l'.time_step = ((toUsize (l.time_step + 1) % toUsize l.sample_rate : ℕ) : ℚ) := by
  rw [next_eq] at h
  by_cases hd : toUsize l.sample_rate = 0
  · rw [if_pos hd] at h
    exact absurd h (by simp)
  · rw [if_neg hd] at h
    simp only [Option.some.injEq, Prod.mk.injEq] at h
    obtain ⟨-, hl⟩ := h
    subst hl
    refine ⟨?_, ?_, rfl⟩
    · show (0:ℚ) ≤ ((toUsize (l.time_step + 1) % toUsize l.sample_rate : ℕ) : ℚ)
      exact Nat.cast_nonneg _
    · show ((toUsize (l.time_step + 1) % toUsize l.sample_rate : ℕ) : ℚ) < l.sample_rate
      have h1 : toUsize (l.time_step + 1) % toUsize l.sample_rate < toUsize l.sample_rate :=
        Nat.mod_lt _ (Nat.pos_of_ne_zero hd)
      have h2 : ((toUsize (l.time_step + 1) % toUsize l.sample_rate : ℕ) : ℚ)
          < ((toUsize l.sample_rate : ℕ) : ℚ) := by
        exact_mod_cast h1
      exact h2.trans_le (toUsize_cast_le hd)

/-- C3 witness: the invariant instantiated after one call on
`Oscillator(SawUp, freq=5, sample_rate=1000)`. -/
theorem C3_time_index_in_range_witness :
    0 ≤ (stepState (LFO.new Waveform.SawUp 5 1000)).time_step ∧
      (stepState (LFO.new Waveform.SawUp 5 1000)).time_step
        < (LFO.new Waveform.SawUp 5 1000).sample_rate ∧
      (stepState (LFO.new Waveform.SawUp 5 1000)).time_step
        = ((toUsize ((LFO.new Waveform.SawUp 5 1000).time_step + 1)
            % toUsize ((LFO.new Waveform.SawUp 5 1000).sample_rate) : ℕ) : ℚ) :=
  C3_time_index_in_range (fun _ => 0) (LFO.new Waveform.SawUp 5 1000)
    (0.5 * (LFO.new Waveform.SawUp 5 1000).gain
      * (rawAmp (fun _ => 0) (LFO.new Waveform.SawUp 5 1000) + 1))
    (stepState (LFO.new Waveform.SawUp 5 1000))
    (by rw [next_eq, if_neg (toUsize_new_1000_ne Waveform.SawUp 5)])

/-- C4 (corrected): the phase computation is truncation-based, not
floor-based: the produced phase always lies in `(-1, 1)`, and it lies in
`[0, 1)` exactly when the argument `freq * time + theta` is nonnegative;
negative arguments give a negative phase. -/
theorem C4_phase_range (freq time theta : ℚ) :
    -1 < phase freq time theta ∧ phase freq time theta < 1 ∧
      (0 ≤ freq * time + theta → 0 ≤ phase freq time theta) :=
  ⟨neg_one_lt_fract _, fract_lt_one _, fun h => fract_nonneg_of_nonneg h⟩

/-- C4 witness: the nonnegativity half instantiated at
`freq = 2, time = 1/4, theta = 0`. -/
theorem C4_phase_range_witness : 0 ≤ phase 2 (1/4) 0 :=
  (C4_phase_range 2 (1/4) 0).2.2 (by norm_num)

/-- C4 counterexample: at `freq = -1, time = 1/1000, theta = 0` (one sample
into a negative-frequency run at rate 1000) the phase is `-1/1000`, outside
the `[0, 1)` the claim asserts. -/
theorem C4_negative_phase :
    phase (-1) (1/1000) 0 = -(1/1000) ∧ phase (-1) (1/1000) 0 < 0 := by
  refine ⟨phase_neg_thousandth, ?_⟩
  rw [phase_neg_thousandth]
  norm_num

/-- C5 (corrected): with a sine model bounded by 1 and nonnegative frequency,
phase offset and time index (so the phase stays in `[0, 1)`), every returned
sample lies within `[-|gain|, |gain|]`; with negative frequency the phase can
go negative and the triangle and saw-down shapers overshoot this range. -/
theorem C5_output_within_gain (s : ℚ → ℚ) (l : LFO) (a : ℚ) (l' : LFO)
    (hs : ∀ x, |s x| ≤ 1) (hf : 0 ≤ l.freq) (hth : 0 ≤ l.theta)
    (hts : 0 ≤ l.time_step) (h : l.next s = some (a, l')) :
    -|l.gain| ≤ a ∧ a ≤ |l.gain| := by
  rw [next_eq] at h
  by_cases hd : toUsize l.sample_rate = 0
  · rw [if_pos hd] at h
    exact absurd h (by simp)
  · rw [if_neg hd] at h
    simp only [Option.some.injEq, Prod.mk.injEq] at h
    obtain ⟨ha, -⟩ := h
    subst ha
    have hsr : 0 ≤ l.sample_rate :=
      le_trans (by norm_num) (one_le_of_toUsize_ne_zero hd)
    have hp0 : 0 ≤ l.currentPhase := currentPhase_nonneg l hf hth hts hsr
    have hp1 : l.currentPhase < 1 := currentPhase_lt_one l
    obtain ⟨hb1, hb2⟩ := rawAmp_bounds s l hs hp0 hp1
    have e1 : 0 ≤ (l.gain + |l.gain|) * (rawAmp s l + 1) :=
      mul_nonneg (by linarith [neg_abs_le l.gain]) (by linarith)
    have e2 : 0 ≤ (|l.gain| - l.gain) * (rawAmp s l + 1) :=
      mul_nonneg (by linarith [le_abs_self l.gain]) (by linarith)
    have e5 : |l.gain| * (rawAmp s l + 1) ≤ |l.gain| * 2 :=
      mul_le_mul_of_nonneg_left (by linarith) (abs_nonneg l.gain)
    constructor
    · nlinarith [e1, e5]
    · nlinarith [e2, e5]

/-- C5 witness: the bound instantiated after one call on
`Oscillator(SawDn, freq=5, sample_rate=1000)` with the zero sine model. -/
theorem C5_output_within_gain_witness :
    -|(LFO.new Waveform.SawDn 5 1000).gain|
        ≤ 0.5 * (LFO.new Waveform.SawDn 5 1000).gain
          * (rawAmp (fun _ => 0) (LFO.new Waveform.SawDn 5 1000) + 1) ∧
      0.5 * (LFO.new Waveform.SawDn 5 1000).gain
          * (rawAmp (fun _ => 0) (LFO.new Waveform.SawDn 5 1000) + 1)
        ≤ |(LFO.new Waveform.SawDn 5 1000).gain| :=
  C5_output_within_gain (fun _ => 0) (LFO.new Waveform.SawDn 5 1000)
    (0.5 * (LFO.new Waveform.SawDn 5 1000).gain
      * (rawAmp (fun _ => 0) (LFO.new Waveform.SawDn 5 1000) + 1))
    (stepState (LFO.new Waveform.SawDn 5 1000))
    (fun x => by norm_num)
    (by norm_num [LFO.new]) (by norm_num [LFO.new]) (by norm_num [LFO.new])
    (by rw [next_eq, if_neg (toUsize_new_1000_ne Waveform.SawDn 5)])

/-- C5 counterexample: on `Oscillator(Triangle, freq=-900, sample_rate=1000)`
with the default gain 1, the second sample is `-9/5`, strictly below
`-|gain| = -1`. -/
theorem C5_output_exceeds_gain :
    (LFO.new Waveform.Triangle (-900) 1000).sampleAt (fun _ => 0) 1 = some (-(9/5)) ∧
      -(9/5 : ℚ) < -|(LFO.new Waveform.Triangle (-900) 1000).gain| := by
  constructor
  · rw [sampleAt_one]
    have hphase : ({ LFO.new Waveform.Triangle (-900) 1000 with
        time_step := (1:ℚ) } : LFO).currentPhase = -(9/10) := by
      show phase (-900) ((1:ℚ)/1000) 0 = -(9/10)
      rw [phase, show ((-900) * ((1:ℚ)/1000) + 0 : ℚ) = -(9/10) by norm_num,
        fract_eval_neg (k := 0) (by norm_num) (by norm_num) (by norm_num)]
      norm_num
    have hraw : rawAmp (fun _ => 0)
        { LFO.new Waveform.Triangle (-900) 1000 with time_step := (1:ℚ) } = -(23/5) := by
      show triangle (({ LFO.new Waveform.Triangle (-900) 1000 with
        time_step := (1:ℚ) } : LFO).currentPhase) = -(23/5)
      rw [hphase, triangle, if_pos (by norm_num)]
      norm_num
    rw [hraw]
    norm_num
  · show -(9/5 : ℚ) < -|(1 : ℚ)|
    norm_num

/-- C6 (corrected): for every phase the oscillator can produce, duty ratio at
least 1 makes pulse return the constant `+1`; duty ratio at most 0 makes it
return `-1` only for nonnegative phases — a negative produced phase (possible
with negative frequency or offset) can still return `+1`. -/
theorem C6_pulse_degenerate_duty (p d : ℚ) :
    (1 ≤ d → p < 1 → pulse p d = 1) ∧ (d ≤ 0 → 0 ≤ p → pulse p d = -1) := by
  constructor
  · intro hd hp
    rw [pulse, if_pos (hp.trans_le hd)]
  · intro hd hp
    rw [pulse, if_neg (not_lt.mpr (hd.trans hp))]

/-- C6 witness: the two degenerate cases at phase `1/4` with duty ratios
`3/2` and `-1`. -/
theorem C6_pulse_degenerate_duty_witness :
    pulse (1/4) (3/2) = 1 ∧ pulse (1/4) (-1) = -1 :=
  ⟨(C6_pulse_degenerate_duty (1/4) (3/2)).1 (by norm_num) (by norm_num),
   (C6_pulse_degenerate_duty (1/4) (-1)).2 (by norm_num) (by norm_num)⟩

/-- C6 counterexample: on `Oscillator(Pulse(0), freq=-1, sample_rate=1000)`
the second call produces phase `-1/1000`, and pulse with duty ratio 0 returns
`+1` there (sample `1` under gain 1), not the constant `-1` the claim
asserts. -/
theorem C6_pulse_zero_duty_high :
    (LFO.new (Waveform.Pulse 0) (-1) 1000).sampleAt (fun _ => 0) 1 = some 1 ∧
      pulse (phase (-1) (1/1000) 0) 0 = 1 := by
  have hpulse : pulse (phase (-1) (1/1000) 0) 0 = 1 := by
    rw [phase_neg_thousandth, pulse, if_pos (by norm_num)]
  constructor
  · rw [sampleAt_one]
    have hraw : rawAmp (fun _ => 0)
        { LFO.new (Waveform.Pulse 0) (-1) 1000 with time_step := (1:ℚ) } = 1 := by
      show pulse (({ LFO.new (Waveform.Pulse 0) (-1) 1000 with
        time_step := (1:ℚ) } : LFO).currentPhase) 0 = 1
      rw [show ({ LFO.new (Waveform.Pulse 0) (-1) 1000 with
        time_step := (1:ℚ) } : LFO).currentPhase = phase (-1) (1/1000) 0 from rfl]
      exact hpulse
    rw [hraw]
    norm_num
  · exact hpulse

/-- C7 (confirmed): set_waveform replaces exactly the waveform selector;
time_step — and with it the phase the next produce_next_sample call computes —
and all other fields are untouched. -/
theorem C7_set_waveform_only_waveform (l : LFO) (w : Waveform) :
    (l.set_waveform w).waveform = w ∧
    (l.set_waveform w).time_step = l.time_step ∧
    (l.set_waveform w).freq = l.freq ∧
    (l.set_waveform w).theta = l.theta ∧
    (l.set_waveform w).gain = l.gain ∧
    (l.set_waveform w).sample_rate = l.sample_rate ∧
    (l.set_waveform w).currentPhase = l.currentPhase :=
  ⟨rfl, rfl, rfl, rfl, rfl, rfl, rfl⟩

/-- C8 (confirmed): for every phase value the SawUp and SawDown shapers are
exact mirror images: `saw p true = -(saw p false)`. -/
theorem C8_saw_mirror (p : ℚ) : saw p true = -(saw p false) := by
  simp [saw]

/-- C9 (confirmed): the implemented output convention is unipolar: whenever
generate returns raw amplitude `a`, the sample is `0.5 * gain * (a + 1)`, and
for `a ∈ [-1, 1]` and nonnegative gain the sample lies in `[0, gain]`. -/
theorem C9_unipolar_output (s : ℚ → ℚ) (l : LFO) (a : ℚ) (l' : LFO)
    (h : l.generate s = some (a, l')) (h1 : -1 ≤ a) (h2 : a ≤ 1) (h3 : 0 ≤ l.gain) :
    l.next s = some (0.5 * l.gain * (a + 1), l') ∧
      0 ≤ 0.5 * l.gain * (a + 1) ∧ 0.5 * l.gain * (a + 1) ≤ l.gain := by
  refine ⟨?_, ?_, ?_⟩
  · rw [LFO.next, h]
  · nlinarith
  · nlinarith

/-- C9 witness: the unipolar formula instantiated on
`Oscillator(SawUp, freq=3, sample_rate=1000)`, whose first raw amplitude
is `-1`. -/
theorem C9_unipolar_output_witness :
    (LFO.new Waveform.SawUp 3 1000).next (fun _ => 0)
        = some (0.5 * (LFO.new Waveform.SawUp 3 1000).gain
            * (rawAmp (fun _ => 0) (LFO.new Waveform.SawUp 3 1000) + 1),
          stepState (LFO.new Waveform.SawUp 3 1000)) ∧
      0 ≤ 0.5 * (LFO.new Waveform.SawUp 3 1000).gain
          * (rawAmp (fun _ => 0) (LFO.new Waveform.SawUp 3 1000) + 1) ∧
      0.5 * (LFO.new Waveform.SawUp 3 1000).gain
          * (rawAmp (fun _ => 0) (LFO.new Waveform.SawUp 3 1000) + 1)
        ≤ (LFO.new Waveform.SawUp 3 1000).gain :=
  C9_unipolar_output (fun _ => 0) (LFO.new Waveform.SawUp 3 1000)
    (rawAmp (fun _ => 0) (LFO.new Waveform.SawUp 3 1000))
    (stepState (LFO.new Waveform.SawUp 3 1000))
    (by rw [generate_eq, if_neg (toUsize_new_1000_ne Waveform.SawUp 3)])
    (by rw [rawAmp_new_sawup])
    (by rw [rawAmp_new_sawup]; norm_num)
    (by show (0:ℚ) ≤ 1; norm_num)

/-- C10 (confirmed): whenever the sample rate truncates to a usize of at
least 1, produce_next_sample returns, and the new time index is a nonnegative
integer value strictly below that truncation — for fractional sample rates the
wraparound happens at the floor, not at the sample rate itself. -/
theorem C10_wrap_at_floor (s : ℚ → ℚ) (l : LFO) (h : 1 ≤ toUsize l.sample_rate) :
    ∃ a l', l.next s = some (a, l') ∧
      ∃ k : ℕ, l'.time_step = (k : ℚ) ∧ k < toUsize l.sample_rate := by
  have hd : toUsize l.sample_rate ≠ 0 := by omega
  refine ⟨0.5 * l.gain * (rawAmp s l + 1), stepState l, ?_, ?_⟩
  · rw [next_eq, if_neg hd]
  · exact ⟨toUsize (l.time_step + 1) % toUsize l.sample_rate, rfl,
      Nat.mod_lt _ (Nat.pos_of_ne_zero hd)⟩

/-- C10 witness: instantiated at the fractional sample rate `5/2`, whose
truncation is `2`. -/
theorem C10_wrap_at_floor_witness :
    ∃ a l', (LFO.new Waveform.Sine 2 (5/2)).next (fun _ => 0) = some (a, l') ∧
      ∃ k : ℕ, l'.time_step = (k : ℚ)
        ∧ k < toUsize ((LFO.new Waveform.Sine 2 (5/2)).sample_rate) :=
  C10_wrap_at_floor (fun _ => 0) (LFO.new Waveform.Sine 2 (5/2))
    (by show 1 ≤ toUsize ((LFO.new Waveform.Sine 2 (5/2)).sample_rate)
        rw [show (LFO.new Waveform.Sine 2 (5/2)).sample_rate = (5/2 : ℚ) from rfl,
          toUsize_five_halves]
        norm_num)

end Claims
